import Mathlib

/-!
Verification development for the MTFKS repository (multi-threaded file
keyword/regex search, C++). The two source files `src/mtfks.cpp` and
`src/mt_search.cpp` are shallowly embedded below:

* `ThreadSafeQueue` models the queue of `mtfks.cpp` (lines 28-73) and
  `SafeQueue` the line-for-line identical queue of `mt_search.cpp`
  (lines 27-66). Byte strings (`std::string`, `fs::path`) are modelled
  as `List Nat`.
* `cppFind` models `std::string::find`: the first position at which the
  pattern occurs, scanning left to right.
* `search_file` models `search_file` of `mtfks.cpp` (lines 80-108);
  the three read-failure exits of the C++ function (stream not open,
  negative `tellg`, failed `read`) are collapsed into the filesystem
  oracle `fsys` answering `none`, and a successful whole-file read into
  `some contents`. `std::regex` is external to the repository and is
  modelled by the oracle `RegexModel`: `compile pat = none` models the
  constructor throwing `std::regex_error`, `some m` a compiled regex
  whose `regex_search` is `m`.
* `contains_keyword_file` models `contains_keyword_file` of
  `mt_search.cpp` (lines 73-102), same read-failure collapsing.
* `processEntry` models the body of the worker loop of `mtfks.cpp`
  (lines 111-132) for one popped path: classify, count, search, report.
  `fs::is_regular_file` may throw (caught at lines 127-130); an `Entry`
  carries the ambient filesystem's answers for its path (kind,
  classification error, read result).
* `Step` is the interleaving semantics of the whole program of
  `mtfks.cpp` `main` (lines 150-170): one producer pushing the walk
  output and then closing the queue, `N` workers that pop, process and
  eventually exit when `pop` answers `none`. A worker whose `pop` wait
  predicate is false has no enabled transition: that is blocking.
-/

namespace MTFKS

/-- Raw byte strings: `std::string` and `fs::path` contents, no encoding
interpretation. -/
abbrev Bytes := List Nat

/-! ## The queues -/

/-- State of `ThreadSafeQueue` (`mtfks.cpp` lines 28-34): the `std::queue`
contents in FIFO order (front first) and the `finished` flag. The mutex and
condition variable are the synchronization mechanism, not state visible to
the embedding; atomicity of each operation is what the transition system
below assumes. The source queue holds `fs::path` values (`α := Bytes`);
the run model instantiates `α := Entry`, a path bundled with the ambient
filesystem's fixed answers for it. -/
structure ThreadSafeQueue (α : Type) where
  q : List α
  finished : Bool
deriving DecidableEq

/-- Model of `ThreadSafeQueue::push` (`mtfks.cpp` lines 36-45): appends the
path at the back of the queue. Note that the source does not consult
`finished`. -/
def ThreadSafeQueue.push {α : Type} (s : ThreadSafeQueue α) (p : α) : ThreadSafeQueue α :=
  { s with q := s.q ++ [p] }

/-- The wait predicate of `cv.wait` inside `ThreadSafeQueue::pop`
(`mtfks.cpp` line 51): a popping thread proceeds only once
`finished || !q.empty()` holds; otherwise it stays blocked. -/
def ThreadSafeQueue.popReady {α : Type} (s : ThreadSafeQueue α) : Bool :=
  s.finished || !s.q.isEmpty

/-- Model of `ThreadSafeQueue::pop` after the wait predicate has become true
(`mtfks.cpp` lines 53-60): an empty queue yields `none` (terminate),
otherwise the front element is removed and returned. -/
def ThreadSafeQueue.pop {α : Type} (s : ThreadSafeQueue α) : Option α × ThreadSafeQueue α :=
  match s.q with
  | [] => (none, s)
  | p :: rest => (some p, { s with q := rest })

/-- Model of `ThreadSafeQueue::set_finished` (`mtfks.cpp` lines 64-72):
sets the flag; `cv.notify_all()` wakes every blocked consumer, which the
transition system reflects by `popReady` becoming true for all of them. -/
def ThreadSafeQueue.set_finished {α : Type} (s : ThreadSafeQueue α) : ThreadSafeQueue α :=
  { s with finished := true }

/-- State of `SafeQueue` (`mt_search.cpp` lines 27-32), identical in
structure to `ThreadSafeQueue`. -/
structure SafeQueue (α : Type) where
  q : List α
  finished : Bool
deriving DecidableEq

/-- Model of `SafeQueue::push` (`mt_search.cpp` lines 34-40); does not
consult `finished`. -/
def SafeQueue.push {α : Type} (s : SafeQueue α) (p : α) : SafeQueue α :=
  { s with q := s.q ++ [p] }

/-- The wait predicate of `SafeQueue::pop` (`mt_search.cpp` line 46). -/
def SafeQueue.popReady {α : Type} (s : SafeQueue α) : Bool :=
  s.finished || !s.q.isEmpty

/-- Model of `SafeQueue::pop` after the wait (`mt_search.cpp` lines 48-55). -/
def SafeQueue.pop {α : Type} (s : SafeQueue α) : Option α × SafeQueue α :=
  match s.q with
  | [] => (none, s)
  | p :: rest => (some p, { s with q := rest })

/-- Model of `SafeQueue::set_finished` (`mt_search.cpp` lines 58-65). -/
def SafeQueue.set_finished {α : Type} (s : SafeQueue α) : SafeQueue α :=
  { s with finished := true }

/-! ## Byte substring search: `std::string::find` -/

/-- `leadsAt pat hay` holds when `pat` occurs at the very start of `hay`:
the per-position comparison `std::string::find` performs. -/
def leadsAt : Bytes → Bytes → Bool
  | [], _ => true
  | _ :: _, [] => false
  | a :: as, b :: bs => a == b && leadsAt as bs

/-- Scan of `std::string::find` from position `i`: tries each successive
position until the pattern fits, or the haystack is exhausted. -/
def cppFindAux (pat : Bytes) : Bytes → Nat → Option Nat
  | [], i => if leadsAt pat [] then some i else none
  | b :: t, i => if leadsAt pat (b :: t) then some i else cppFindAux pat t (i + 1)

/-- Model of `contents.find(pattern)` on byte strings: `some i` is the
first position where `pattern` occurs in `contents`; `none` is
`std::string::npos`. -/
def cppFind (contents pat : Bytes) : Option Nat :=
  cppFindAux pat contents 0

/-- Specification-side notion of byte substring: `pat` occurs somewhere in
`hay`, i.e. `hay` splits as prefix, `pat`, suffix. -/
def IsSub (pat hay : Bytes) : Prop :=
  ∃ s t, s ++ pat ++ t = hay

/-! ## The match predicates -/

/-- Oracle for the external `std::regex` library: `compile pat = none`
models the `std::regex` constructor throwing `std::regex_error` on the
invalid pattern `pat`; `compile pat = some m` models a successful compile
whose `std::regex_search(contents, re)` answers `m contents`. -/
structure RegexModel where
  compile : Bytes → Option (Bytes → Bool)

/-- Model of `search_file` (`mtfks.cpp` lines 80-108). `fsys p` is the
whole-file read of path `p`: `none` collapses the three failure exits of
the source (lines 83, 88, 95: stream not open, negative size, failed read),
each of which makes the function return `false`; `some contents` is a
successful read. Only then (lines 98-107) the pattern is applied: in regex
mode the pattern is compiled here, per call, and a `std::regex_error` is
caught and turned into `false` (lines 99-104); in literal mode the result
is `contents.find(pattern) != npos` (line 106). -/
def search_file (fsys : Bytes → Option Bytes) (re : RegexModel)
    (p pattern : Bytes) (use_regex : Bool) : Bool :=
  match fsys p with
  | none => false
  | some contents =>
    if use_regex then
      match re.compile pattern with
      | none => false
      | some m => m contents
    else
      (cppFind contents pattern).isSome

/-- Model of `contains_keyword_file` (`mt_search.cpp` lines 73-102): same
read structure as `search_file` (failure exits at lines 79-81, 88-90,
97-99 all return `false`), then `contents.find(keyword) != npos`
(line 101). -/
def contains_keyword_file (fsys : Bytes → Option Bytes)
    (p keyword : Bytes) : Bool :=
  match fsys p with
  | none => false
  | some contents => (cppFind contents keyword).isSome

/-! ## Filesystem entries and the worker body -/

/-- Classification of a filesystem entry, as `fs::is_regular_file` sees it:
a regular file, a directory, or anything else (sockets, devices, broken
symlinks, ...). -/
inductive FKind where
  | file
  | dir
  | special
deriving DecidableEq

/-- A path together with the ambient filesystem's answers for it during the
run: its classification, whether `fs::is_regular_file` throws on it (and
with what message), and the result of a whole-file read of it (`none` when
opening or reading fails). The filesystem is external state, constant
during the run, so it travels with the path token. -/
structure Entry where
  path : Bytes
  kind : FKind
  classifyErr : Option Bytes
  content : Option Bytes
deriving DecidableEq

/-- Model of `fs::is_regular_file(path)` as called at `mtfks.cpp`
line 120: it may throw (`.error msg`), otherwise answers whether the entry
is a regular file. -/
def is_regular_file (e : Entry) : Except Bytes Bool :=
  match e.classifyErr with
  | some msg => .error msg
  | none => .ok (e.kind == .file)

/-- One output record: a match line on standard output
(`mtfks.cpp` line 124) or an error line on standard error (line 129).
Each record is written whole under the output mutex `out_m`. -/
inductive OutRec where
  | matched (p : Bytes)
  | err (p : Bytes) (msg : Bytes)
deriving DecidableEq

/-- The run configuration shared read-only by all workers: the regex
oracle, the pattern, and the mode flag. -/
structure Params where
  re : RegexModel
  pattern : Bytes
  use_regex : Bool

/-- Model of the body of the worker loop for one popped path
(`mtfks.cpp` lines 119-130): inside the try block, classify the path; if
it is a regular file, first increment `n_files_scanned`, then run
`search_file` and emit a match record on success; a throw from the
classification is caught and emits an error record. Returns the records
emitted and the counter increment. The filesystem read inside
`search_file` is the entry's own `content`. -/
def processEntry (P : Params) (e : Entry) : List OutRec × Nat :=
  match is_regular_file e with
  | .error msg => ([.err e.path msg], 0)
  | .ok true =>
    if search_file (fun _ => e.content) P.re e.path P.pattern P.use_regex then
      ([.matched e.path], 1)
    else
      ([], 1)
  | .ok false => ([], 0)

/-- Records the worker emits for one entry. -/
def entryRecs (P : Params) (e : Entry) : List OutRec :=
  (processEntry P e).1

/-- Increment of `n_files_scanned` for one entry. -/
def entryCnt (P : Params) (e : Entry) : Nat :=
  (processEntry P e).2

/-- Records emitted for a list of entries, in list order: the output of a
run in which the entries are processed in that order. -/
def pendRecs (P : Params) : List Entry → List OutRec
  | [] => []
  | e :: es => entryRecs P e ++ pendRecs P es

/-- Total `n_files_scanned` contribution of a list of entries. -/
def pendCnt (P : Params) : List Entry → Nat
  | [] => 0
  | e :: es => entryCnt P e + pendCnt P es

/-- Occurrence count of a record in an output list. -/
def occCount (r : OutRec) : List OutRec → Nat
  | [] => 0
  | x :: xs => (if x = r then 1 else 0) + occCount r xs

/-! ## Directory trees and the walk -/

mutual
/-- A directory tree: regular files carry their read result, directories
their children, and special entries (sockets, devices, broken symlinks,
vanished entries) optionally the message with which classification throws
on them. -/
inductive FsTree where
  | file (path : Bytes) (content : Option Bytes) : FsTree
  | dir (path : Bytes) (children : FsForest) : FsTree
  | special (path : Bytes) (classifyErr : Option Bytes) : FsTree
/-- A list of sibling trees. -/
inductive FsForest where
  | nil : FsForest
  | cons (t : FsTree) (ts : FsForest) : FsForest
end

mutual
/-- Entries yielded for one tree node and its descendants, in the order
`fs::recursive_directory_iterator` yields them (node before its
children). -/
def FsTree.walkTree : FsTree → List Entry
  | .file p c => [⟨p, .file, none, c⟩]
  | .dir p ch => ⟨p, .dir, none, none⟩ :: ch.walkForest
  | .special p err => [⟨p, .special, err, none⟩]
/-- Entries yielded for a forest. `fs::recursive_directory_iterator(root)`
yields exactly `walkForest children` for a root directory with these
children: the root itself is not yielded. -/
def FsForest.walkForest : FsForest → List Entry
  | .nil => []
  | .cons t ts => t.walkTree ++ ts.walkForest
end

mutual
/-- Number of regular files in one tree. -/
def FsTree.countFiles : FsTree → Nat
  | .file _ _ => 1
  | .dir _ ch => ch.countFilesForest
  | .special _ _ => 0
/-- Number of regular files reachable in a forest. -/
def FsForest.countFilesForest : FsForest → Nat
  | .nil => 0
  | .cons t ts => t.countFiles + ts.countFilesForest
end

/-! ## The interleaving semantics of a run -/

/-- Global state of a run of `main` (`mtfks.cpp` lines 150-176): the shared
queue, the entries the walk has not pushed yet, whether the producer has
called `set_finished`, the number of workers idling between loop
iterations, the entries currently popped and being processed by some
worker, the records written so far and the counter. A worker that has
exited its loop no longer appears in `idle` or `holding`. -/
structure SysState where
  queue : ThreadSafeQueue Entry
  toPush : List Entry
  walkClosed : Bool
  idle : Nat
  holding : List Entry
  outs : List OutRec
  scanned : Nat
deriving DecidableEq

/-- One atomic transition of the run. Producer transitions: `push` while
walk output remains (`mtfks.cpp` line 161), `close` once the walk is over
— normally or after a walk-level exception — (line 169). Worker
transitions: `popSome`/`popNone` are the two outcomes of
`ThreadSafeQueue::pop` once its wait predicate holds, `emit` completes the
processing of a held entry (the whole entry body runs between two queue
interactions and touches only the atomic counter and the output mutex, so
it is one transition), `exitLoop` is the `break` on a `none` pop
(line 115). A worker blocked in `pop` (wait predicate false) has no
enabled transition. -/
inductive Step (P : Params) : SysState → SysState → Prop where
  | push (s : SysState) (e : Entry) (rest : List Entry) :
      s.toPush = e :: rest →
      Step P s { s with toPush := rest, queue := s.queue.push e }
  | close (s : SysState) :
      s.toPush = [] → s.walkClosed = false →
      Step P s { s with walkClosed := true, queue := s.queue.set_finished }
  | popSome (s : SysState) (e : Entry) (q' : ThreadSafeQueue Entry) :
      1 ≤ s.idle → s.queue.popReady = true → s.queue.pop = (some e, q') →
      Step P s { s with queue := q', idle := s.idle - 1,
                        holding := e :: s.holding }
  | emit (s : SysState) (e : Entry) (h1 h2 : List Entry) :
      s.holding = h1 ++ e :: h2 →
      Step P s { s with holding := h1 ++ h2, idle := s.idle + 1,
                        outs := s.outs ++ entryRecs P e,
                        scanned := s.scanned + entryCnt P e }
  | exitLoop (s : SysState) (q' : ThreadSafeQueue Entry) :
      1 ≤ s.idle → s.queue.popReady = true → s.queue.pop = (none, q') →
      Step P s { s with queue := q', idle := s.idle - 1 }

/-- Initial state: fresh queue, the walk output still to push, `N` workers
started and immediately blocking or racing on `pop`. A walk aborted by a
walk-level fatal error (caught at `mtfks.cpp` lines 164-166) is the same
state with only the prefix of entries pushed before the abort, since
`set_finished` at line 169 runs in either case; `toPush` is therefore an
arbitrary list. -/
def init (all : List Entry) (N : Nat) : SysState :=
  { queue := ⟨[], false⟩, toPush := all, walkClosed := false,
    idle := N, holding := [], outs := [], scanned := 0 }

/-- A state with no enabled transition: the run can make no further
progress. -/
def stuckState (P : Params) (s : SysState) : Prop :=
  ¬ ∃ s', Step P s s'

/-- Reachability along transitions. -/
def Reach (P : Params) : SysState → SysState → Prop :=
  Relation.ReflTransGen (Step P)

/-- Termination measure: every transition strictly decreases it. -/
def sysMeasure (s : SysState) : Nat :=
  4 * s.toPush.length + 3 * s.queue.q.length + 2 * s.holding.length +
    (if s.walkClosed then 0 else 1) + s.idle

/-! ## The command-line surface -/

/-- Model of `std::stoi` on a byte string: skip leading whitespace, accept
an optional sign, then at least one decimal digit (trailing bytes are
ignored). `none` models a throw: `std::invalid_argument` when no digit is
found, `std::out_of_range` when the value does not fit in `int`. -/
def cppStoi (s : Bytes) : Option Int :=
  let s1 := s.dropWhile (fun b => b == 32 || (9 ≤ b && b ≤ 13))
  let signed : Bool × Bytes :=
    match s1 with
    | 45 :: t => (true, t)
    | 43 :: t => (false, t)
    | t => (false, t)
  let ds := signed.2.takeWhile (fun b => 48 ≤ b && b ≤ 57)
  if ds.isEmpty then none
  else
    let v : Nat := ds.foldl (fun a b => a * 10 + (b - 48)) 0
    let iv : Int := if signed.1 then -(v : Int) else (v : Int)
    if iv < -2147483648 ∨ 2147483647 < iv then none else some iv

/-- Configuration read by `main` of `mtfks.cpp` (lines 143-146):
`root = argv[2]`, `pattern = argv[1]`, `num_threads = stoi(argv[3])`,
`use_regex = stoi(argv[4]) != 0`. -/
structure MtfksConfig where
  root : Bytes
  pattern : Bytes
  num_threads : Int
  use_regex : Bool
deriving DecidableEq

/-- Outcome of argument handling in `main` of `mtfks.cpp` (lines 137-146):
`usage` is the `argc != 5` branch (usage message to standard error, return
code 2); `crashed` models an uncaught `std::stoi` exception (abnormal,
non-zero termination); `ok` proceeds to the scan. -/
inductive MtfksParseResult where
  | usage
  | crashed
  | ok (cfg : MtfksConfig)
deriving DecidableEq

/-- Model of argument handling in `main` of `mtfks.cpp` (lines 137-148):
exactly five `argv` entries are required (`argc != 5` exits with usage);
the pattern is `argv[1]` and the root path `argv[2]`. -/
def mtfks_parse : List Bytes → MtfksParseResult
  | [_, a1, a2, a3, a4] =>
    match cppStoi a3, cppStoi a4 with
    | some nt, some md => .ok ⟨a2, a1, nt, md != 0⟩
    | _, _ => .crashed
  | _ => .usage

/-- The thread-count coercion of `mtfks.cpp` line 148:
`if (num_threads <= 0) num_threads = 1`. -/
def effThreads (cfg : MtfksConfig) : Int :=
  if cfg.num_threads ≤ 0 then 1 else cfg.num_threads

/-- Configuration read by `main` of `mt_search.cpp` (lines 138-141):
`root = argv[1]`, `keyword = argv[2]`, `num_threads = stoi(argv[3])`. -/
structure MtConfig where
  root : Bytes
  keyword : Bytes
  num_threads : Int
deriving DecidableEq

/-- Outcome of argument handling in `main` of `mt_search.cpp`. -/
inductive MtParseResult where
  | usage
  | crashed
  | ok (cfg : MtConfig)
deriving DecidableEq

/-- Model of argument handling in `main` of `mt_search.cpp`
(lines 133-145): fewer than four `argv` entries exits with usage (return
code 2); extra entries are ignored; the root path is `argv[1]`, the
keyword `argv[2]`, and there is no mode argument. -/
def mt_parse : List Bytes → MtParseResult
  | _ :: a1 :: a2 :: a3 :: _ =>
    (match cppStoi a3 with
     | some nt => .ok ⟨a1, a2, nt⟩
     | none => .crashed)
  | _ => .usage

/-- The thread-count coercion of `mt_search.cpp` lines 143-145. -/
def mtEffThreads (cfg : MtConfig) : Int :=
  if cfg.num_threads ≤ 0 then 1 else cfg.num_threads

/-- Observable outcome of a whole run of `mtfks.cpp`: process exit code,
the multiset-of-record content of the run output (in canonical walk
order; by the stuck-state theorems below every complete interleaving
produces exactly these records up to reordering), the final
`n_files_scanned`, and the number of worker threads spawned. -/
structure RunResult where
  exitCode : Nat
  outs : List OutRec
  scanned : Nat
  threads : Int
deriving DecidableEq

/-- Model of `main` of `mtfks.cpp` (lines 135-177) over a root directory
whose children form the given forest: argument handling, thread-count
coercion (line 148), the scan, and `return 0` (line 176). A usage error
returns 2 before any scan; an uncaught `std::stoi` throw terminates
abnormally (exit code 134, `SIGABRT`); otherwise the process always
returns 0 — also when the regex pattern is invalid, since `search_file`
swallows `std::regex_error` per file. -/
def mtfks_main (re : RegexModel) (argv : List Bytes) (root : FsForest) :
    RunResult :=
  match mtfks_parse argv with
  | .usage => ⟨2, [], 0, 0⟩
  | .crashed => ⟨134, [], 0, 0⟩
  | .ok cfg =>
    let P : Params := ⟨re, cfg.pattern, cfg.use_regex⟩
    ⟨0, pendRecs P root.walkForest, pendCnt P root.walkForest,
      effThreads cfg⟩

/-! ## Concrete instances used in the examples below -/

/-- A regex oracle on which every pattern fails to compile: it models the
behaviour of `std::regex` on the concrete invalid patterns (such as a lone
`(`, byte 40) at which it is instantiated below. -/
def reNone : RegexModel := ⟨fun _ => none⟩

/-- Literal-mode parameters with the one-byte pattern `a` (97). -/
def P1 : Params := ⟨reNone, [97], false⟩

/-- Literal-mode parameters with the empty pattern. -/
def P2 : Params := ⟨reNone, [], false⟩

/-- The bytes of the pattern `needle`. -/
def pNeedle : Bytes := [110, 101, 101, 100, 108, 101]

/-- Literal-mode parameters with the pattern `needle`. -/
def Pscen : Params := ⟨reNone, pNeedle, false⟩

/-- The scenario tree of the specification: regular files `A` (content
`needle`), `B` (content `hay`) and `C` (unreadable). -/
def scenForest : FsForest :=
  .cons (.file [65] (some pNeedle))
    (.cons (.file [66] (some [104, 97, 121]))
      (.cons (.file [67] none) .nil))

/-- A one-byte regular file named `a` whose content is `a`. -/
def e97 : Entry := ⟨[97], .file, none, some [97]⟩

/-- A root directory holding only the file `e97`. -/
def wForest : FsForest := .cons (.file [97] (some [97])) .nil

/-- The terminal state of every complete run of `wForest` under `P1`:
queue closed and drained, all workers exited, the single match emitted
and one file counted. -/
def w1Final : SysState :=
  ⟨⟨[], true⟩, [], true, 0, [], [OutRec.matched [97]], 1⟩

/-- Command line `m ( r 1 1`: program name, the invalid regex pattern `(`
(byte 40), root path `r`, one thread, regex mode. -/
def c1Argv : List Bytes := [[109], [40], [114], [49], [49]]

/-- A root directory holding one readable regular file `f` with content
`abc`. -/
def c1Forest : FsForest := .cons (.file [102] (some [97, 98, 99])) .nil

/-! ## Helper lemmas -/

theorem ThreadSafeQueue.pop_some {α : Type} {qs q' : ThreadSafeQueue α} {e : α}
    (h : qs.pop = (some e, q')) : qs.q = e :: q'.q ∧ q'.finished = qs.finished := by
  cases qs with
  | mk q f =>
    cases q with
    | nil => simp [ThreadSafeQueue.pop] at h
    | cons a t =>
      simp [ThreadSafeQueue.pop] at h
      obtain ⟨h1, h2⟩ := h
      subst h1
      subst h2
      exact ⟨rfl, rfl⟩

theorem ThreadSafeQueue.pop_none {α : Type} {qs q' : ThreadSafeQueue α}
    (h : qs.pop = (none, q')) : qs.q = [] ∧ q' = qs := by
  cases qs with
  | mk q f =>
    cases q with
    | nil =>
      simp [ThreadSafeQueue.pop] at h
      subst h
      exact ⟨rfl, rfl⟩
    | cons a t => simp [ThreadSafeQueue.pop] at h

theorem pendRecs_append (P : Params) (a b : List Entry) :
    pendRecs P (a ++ b) = pendRecs P a ++ pendRecs P b := by
  induction a with
  | nil => rfl
  | cons e es ih => simp [pendRecs, ih]

theorem pendCnt_append (P : Params) (a b : List Entry) :
    pendCnt P (a ++ b) = pendCnt P a + pendCnt P b := by
  induction a with
  | nil => simp [pendCnt]
  | cons e es ih => simp [pendCnt, ih]; omega

theorem occCount_append (r : OutRec) (a b : List OutRec) :
    occCount r (a ++ b) = occCount r a + occCount r b := by
  induction a with
  | nil => simp [occCount]
  | cons x xs ih => simp [occCount, ih]; omega

theorem occCount_pos_iff_mem (r : OutRec) (l : List OutRec) :
    0 < occCount r l ↔ r ∈ l := by
  induction l with
  | nil => simp [occCount]
  | cons x xs ih =>
    by_cases h : x = r
    · subst h
      simp [occCount]
    · simp [occCount, h, ih]
      intro hr
      exact absurd hr.symm h

theorem leadsAt_iff (pat : Bytes) : ∀ hay : Bytes,
    leadsAt pat hay = true ↔ ∃ t, pat ++ t = hay := by
  induction pat with
  | nil =>
    intro hay
    simp [leadsAt]
  | cons a as ih =>
    intro hay
    cases hay with
    | nil =>
      simp [leadsAt]
    | cons b bs =>
      constructor
      · intro hl
        simp only [leadsAt, Bool.and_eq_true, beq_iff_eq] at hl
        obtain ⟨hab, hrest⟩ := hl
        obtain ⟨t, ht⟩ := (ih bs).mp hrest
        subst hab
        exact ⟨t, by rw [List.cons_append, ht]⟩
      · rintro ⟨t, ht⟩
        simp only [List.cons_append] at ht
        injection ht with h1 h2
        subst h1
        simp only [leadsAt, Bool.and_eq_true, beq_iff_eq]
        exact ⟨by trivial, (ih bs).mpr ⟨t, h2⟩⟩

theorem cppFindAux_isSome_iff (pat : Bytes) : ∀ (hay : Bytes) (i : Nat),
    (cppFindAux pat hay i).isSome = true ↔ IsSub pat hay := by
  intro hay
  induction hay with
  | nil =>
    intro i
    constructor
    · intro hs
      by_cases h : leadsAt pat [] = true
      · obtain ⟨t, ht⟩ := (leadsAt_iff pat []).mp h
        exact ⟨[], t, by rw [List.nil_append]; exact ht⟩
      · simp [cppFindAux, h] at hs
    · rintro ⟨s, t, hst⟩
      obtain ⟨hs1, hs2⟩ := List.append_eq_nil.mp hst
      obtain ⟨hp1, hp2⟩ := List.append_eq_nil.mp hs1
      subst hp2
      simp [cppFindAux, leadsAt]
  | cons b bs ih =>
    intro i
    by_cases h : leadsAt pat (b :: bs) = true
    · obtain ⟨t, ht⟩ := (leadsAt_iff pat (b :: bs)).mp h
      constructor
      · intro _
        exact ⟨[], t, by rw [List.nil_append]; exact ht⟩
      · intro _
        simp [cppFindAux, h]
    · have hstep : cppFindAux pat (b :: bs) i = cppFindAux pat bs (i + 1) := by
        simp [cppFindAux, h]
      rw [hstep, ih (i + 1)]
      constructor
      · rintro ⟨s, t, hst⟩
        exact ⟨b :: s, t, by rw [List.cons_append, List.cons_append, hst]⟩
      · rintro ⟨s, t, hst⟩
        cases s with
        | nil =>
          exfalso
          apply h
          apply (leadsAt_iff pat (b :: bs)).mpr
          rw [List.nil_append] at hst
          exact ⟨t, hst⟩
        | cons c cs =>
          rw [List.cons_append, List.cons_append] at hst
          injection hst with h1 h2
          exact ⟨cs, t, h2⟩

theorem cppFind_isSome_iff (contents pat : Bytes) :
    (cppFind contents pat).isSome = true ↔ IsSub pat contents :=
  cppFindAux_isSome_iff pat contents 0

theorem entryCnt_file (P : Params) (p : Bytes) (c : Option Bytes) :
    entryCnt P ⟨p, .file, none, c⟩ = 1 := by
  unfold entryCnt processEntry
  show (if search_file (fun _ => c) P.re p P.pattern P.use_regex = true then
      ([OutRec.matched p], 1) else ([], 1)).2 = 1
  split <;> rfl

theorem entryCnt_dir (P : Params) (p : Bytes) :
    entryCnt P ⟨p, .dir, none, none⟩ = 0 := by
  rfl

theorem entryCnt_special (P : Params) (p : Bytes) (err : Option Bytes) :
    entryCnt P ⟨p, .special, err, none⟩ = 0 := by
  unfold entryCnt processEntry is_regular_file
  cases err <;> rfl

mutual
theorem pendCnt_walkTree (P : Params) (t : FsTree) :
    pendCnt P t.walkTree = t.countFiles := by
  cases t with
  | file p c =>
    show pendCnt P [⟨p, .file, none, c⟩] = 1
    show entryCnt P ⟨p, .file, none, c⟩ + pendCnt P [] = 1
    rw [entryCnt_file]
    rfl
  | dir p ch =>
    show entryCnt P ⟨p, .dir, none, none⟩ + pendCnt P ch.walkForest = ch.countFilesForest
    rw [entryCnt_dir, pendCnt_walkForest P ch]
    omega
  | special p err =>
    show entryCnt P ⟨p, .special, err, none⟩ + pendCnt P [] = 0
    rw [entryCnt_special]
    rfl
theorem pendCnt_walkForest (P : Params) (ts : FsForest) :
    pendCnt P ts.walkForest = ts.countFilesForest := by
  cases ts with
  | nil => rfl
  | cons t ts =>
    show pendCnt P (t.walkTree ++ ts.walkForest) = t.countFiles + ts.countFilesForest
    rw [pendCnt_append, pendCnt_walkTree P t, pendCnt_walkForest P ts]
end

/-- Invariant of a run started as `init all N`: the walk flag mirrors the
queue flag, the queue is closed only after the walk produced everything,
a worker has exited only once the queue was closed and drained, and the
records and counter emitted so far plus those still pending in the queue,
the walk and the workers' hands account exactly for the whole walk
output. -/
structure Inv (P : Params) (all : List Entry) (N : Nat) (s : SysState) : Prop where
  closed_eq : s.walkClosed = s.queue.finished
  fin_toPush : s.queue.finished = true → s.toPush = []
  exited_q : s.idle + s.holding.length < N →
    s.queue.q = [] ∧ s.queue.finished = true ∧ s.toPush = []
  outs_eq : ∀ r, occCount r s.outs +
    occCount r (pendRecs P (s.queue.q ++ s.toPush ++ s.holding)) =
    occCount r (pendRecs P all)
  scan_eq : s.scanned + pendCnt P (s.queue.q ++ s.toPush ++ s.holding) =
    pendCnt P all

theorem inv_init (P : Params) (all : List Entry) (N : Nat) :
    Inv P all N (init all N) := by
  refine ⟨rfl, ?_, ?_, ?_, ?_⟩
  · intro h
    simp [init] at h
  · intro h
    exfalso
    simp only [init, List.length_nil] at h
    omega
  · intro r
    simp [init, occCount]
  · simp [init, pendCnt]

theorem inv_step {P : Params} {all : List Entry} {N : Nat} {s s' : SysState}
    (hinv : Inv P all N s) (hstep : Step P s s') : Inv P all N s' := by
  obtain ⟨hc, hf, hx, ho, hs⟩ := hinv
  cases hstep with
  | push e rest hp =>
    refine ⟨hc, ?_, ?_, ?_, ?_⟩
    · intro h
      exact absurd (hf h) (by rw [hp]; simp)
    · intro h
      obtain ⟨-, -, h3⟩ := hx h
      rw [hp] at h3
      simp at h3
    · intro r
      have h0 := ho r
      rw [hp] at h0
      simp only [ThreadSafeQueue.push, pendRecs_append, pendRecs, occCount_append,
        occCount, List.append_assoc, List.cons_append, List.nil_append,
        List.append_nil, List.append_eq] at h0 ⊢
      omega
    · have h0 := hs
      rw [hp] at h0
      simp only [ThreadSafeQueue.push, pendCnt_append, pendCnt, List.append_assoc,
        List.cons_append, List.nil_append, List.append_nil, List.append_eq] at h0 ⊢
      omega
  | close hp hw =>
    refine ⟨rfl, ?_, ?_, ho, hs⟩
    · intro _
      exact hp
    · intro h
      obtain ⟨h1, -, -⟩ := hx h
      exact ⟨h1, rfl, hp⟩
  | popSome e q' h1 h2 h3 =>
    obtain ⟨hq, hfin⟩ := ThreadSafeQueue.pop_some h3
    refine ⟨?_, ?_, ?_, ?_, ?_⟩
    · rw [hc, hfin]
    · intro h
      rw [hfin] at h
      exact hf h
    · intro h
      simp only [List.length_cons] at h
      have h' : s.idle + s.holding.length < N := by omega
      obtain ⟨hq1, -, -⟩ := hx h'
      rw [hq1] at hq
      simp at hq
    · intro r
      have h0 := ho r
      rw [hq] at h0
      simp only [pendRecs_append, pendRecs, occCount_append, occCount,
        List.append_assoc, List.cons_append, List.nil_append,
        List.append_nil, List.append_eq] at h0 ⊢
      omega
    · have h0 := hs
      rw [hq] at h0
      simp only [pendCnt_append, pendCnt, List.append_assoc, List.cons_append,
        List.nil_append, List.append_nil, List.append_eq] at h0 ⊢
      omega
  | emit e h1 h2 hh =>
    refine ⟨hc, hf, ?_, ?_, ?_⟩
    · intro h
      apply hx
      rw [hh]
      simp only [List.length_append, List.length_cons] at h ⊢
      omega
    · intro r
      have h0 := ho r
      rw [hh] at h0
      simp only [pendRecs_append, pendRecs, occCount_append, occCount,
        List.append_assoc, List.cons_append, List.nil_append,
        List.append_nil, List.append_eq] at h0 ⊢
      omega
    · have h0 := hs
      rw [hh] at h0
      simp only [pendCnt_append, pendCnt, List.append_assoc, List.cons_append,
        List.nil_append, List.append_nil, List.append_eq] at h0 ⊢
      omega
  | exitLoop q' h1 h2 h3 =>
    obtain ⟨hq, hq'⟩ := ThreadSafeQueue.pop_none h3
    subst hq'
    have hfin : s.queue.finished = true := by
      have h4 := h2
      simp only [ThreadSafeQueue.popReady, hq, List.isEmpty_nil, Bool.not_true,
        Bool.or_false] at h4
      exact h4
    refine ⟨hc, hf, ?_, ho, hs⟩
    intro _
    exact ⟨hq, hfin, hf hfin⟩

theorem reach_inv {P : Params} {all : List Entry} {N : Nat} {s s' : SysState}
    (hr : Reach P s s') (hinv : Inv P all N s) : Inv P all N s' := by
  induction hr with
  | refl => exact hinv
  | tail hr hstep ih => exact inv_step ih hstep

theorem step_measure {P : Params} {s s' : SysState} (hstep : Step P s s') :
    sysMeasure s' < sysMeasure s := by
  cases hstep with
  | push e rest hp =>
    simp only [sysMeasure, ThreadSafeQueue.push, List.length_append,
      List.length_cons, List.length_nil, hp]
    omega
  | close hp hw =>
    simp only [sysMeasure, ThreadSafeQueue.set_finished, hw, if_false,
      Bool.false_eq_true, if_true]
    omega
  | popSome e q' h1 h2 h3 =>
    obtain ⟨hq, -⟩ := ThreadSafeQueue.pop_some h3
    simp only [sysMeasure, List.length_cons, hq]
    omega
  | emit e h1 h2 hh =>
    simp only [sysMeasure, hh, List.length_append, List.length_cons]
    omega
  | exitLoop q' h1 h2 h3 =>
    obtain ⟨hq, hq'⟩ := ThreadSafeQueue.pop_none h3
    subst hq'
    simp only [sysMeasure]
    omega

theorem no_descending (g : Nat → Nat) (h : ∀ n, g (n + 1) < g n) : False := by
  have key : ∀ n, g n + n ≤ g 0 := by
    intro n
    induction n with
    | zero => omega
    | succ k ih =>
      have := h k
      omega
  have := key (g 0 + 1)
  omega

/-- Every execution of the run is finite: there is no infinite transition
sequence at all. -/
theorem no_infinite_run (P : Params) (f : Nat → SysState)
    (h : ∀ n, Step P (f n) (f (n + 1))) : False :=
  no_descending (fun n => sysMeasure (f n)) (fun n => step_measure (h n))

/-- In a reachable stuck state of a run with at least one worker, every
worker has exited, the queue is closed, and nothing is left anywhere. -/
theorem stuck_terminal {P : Params} {all : List Entry} {N : Nat} {s : SysState}
    (hN : 1 ≤ N) (hr : Reach P (init all N) s) (hstuck : stuckState P s) :
    s.idle = 0 ∧ s.holding = [] ∧ s.queue.finished = true ∧
      s.queue.q = [] ∧ s.toPush = [] := by
  have hinv := reach_inv hr (inv_init P all N)
  have hhold : s.holding = [] := by
    cases hh : s.holding with
    | nil => rfl
    | cons x xs =>
      exact absurd ⟨_, Step.emit s x [] xs (by rw [hh]; rfl)⟩ hstuck
  have hidle : s.idle = 0 := by
    by_contra hne
    have h1 : 1 ≤ s.idle := by omega
    cases hq : s.queue.q with
    | cons e rest =>
      have hready : s.queue.popReady = true := by
        simp [ThreadSafeQueue.popReady, hq]
      have hpop : s.queue.pop = (some e, { s.queue with q := rest }) := by
        simp [ThreadSafeQueue.pop, hq]
      exact absurd ⟨_, Step.popSome s e _ h1 hready hpop⟩ hstuck
    | nil =>
      cases hfin : s.queue.finished with
      | true =>
        have hready : s.queue.popReady = true := by
          simp [ThreadSafeQueue.popReady, hfin]
        have hpop : s.queue.pop = (none, s.queue) := by
          simp [ThreadSafeQueue.pop, hq]
        exact absurd ⟨_, Step.exitLoop s _ h1 hready hpop⟩ hstuck
      | false =>
        cases hp : s.toPush with
        | cons e rest =>
          exact absurd ⟨_, Step.push s e rest hp⟩ hstuck
        | nil =>
          have hw : s.walkClosed = false := by rw [hinv.closed_eq, hfin]
          exact absurd ⟨_, Step.close s hp hw⟩ hstuck
  have hsum : s.idle + s.holding.length < N := by
    rw [hidle, hhold]
    simpa using hN
  obtain ⟨h1, h2, h3⟩ := hinv.exited_q hsum
  exact ⟨hidle, hhold, h2, h1, h3⟩

/-- In a reachable stuck state, the emitted records account exactly for
the whole walk output, and the counter for its scanned total. -/
theorem stuck_counts {P : Params} {all : List Entry} {N : Nat} {s : SysState}
    (hN : 1 ≤ N) (hr : Reach P (init all N) s) (hstuck : stuckState P s) :
    (∀ r, occCount r s.outs = occCount r (pendRecs P all)) ∧
      s.scanned = pendCnt P all := by
  have hinv := reach_inv hr (inv_init P all N)
  obtain ⟨-, -, -, hq, hp⟩ := stuck_terminal hN hr hstuck
  obtain ⟨-, hh, -, -, -⟩ := stuck_terminal hN hr hstuck
  constructor
  · intro r
    have := hinv.outs_eq r
    rw [hq, hp, hh] at this
    simpa [pendRecs, occCount] using this
  · have := hinv.scan_eq
    rw [hq, hp, hh] at this
    simpa [pendCnt] using this

theorem cppFind_nil_pat (hay : Bytes) : cppFind hay [] = some 0 := by
  cases hay <;> rfl

theorem mem_pendRecs {P : Params} {e : Entry} {l : List Entry} {r : OutRec}
    (he : e ∈ l) (hr : r ∈ entryRecs P e) : r ∈ pendRecs P l := by
  induction l with
  | nil => cases he
  | cons x xs ih =>
    show r ∈ entryRecs P x ++ pendRecs P xs
    rcases List.mem_cons.mp he with h | h
    · subst h
      exact List.mem_append.mpr (Or.inl hr)
    · exact List.mem_append.mpr (Or.inr (ih h))

theorem matched_mem_entryRecs {P : Params} {e : Entry} (hk : e.kind = .file)
    (hc : e.classifyErr = none) (c2 : Bytes) (hcon : e.content = some c2)
    (hpat : P.pattern = []) (hmode : P.use_regex = false) :
    OutRec.matched e.path ∈ entryRecs P e := by
  obtain ⟨p, k, ce, co⟩ := e
  simp only at hk hc hcon
  subst hk
  subst hc
  subst hcon
  have hsearch : search_file (fun _ => some c2) P.re p P.pattern P.use_regex = true := by
    rw [hpat, hmode]
    simp [search_file, cppFind_nil_pat]
  simp only [entryRecs, processEntry, is_regular_file]
  simp [hsearch]

theorem reachW1 : Reach P1 (init wForest.walkForest 1) w1Final := by
  have h1 : Step P1 (init wForest.walkForest 1)
      ⟨⟨[e97], false⟩, [], false, 1, [], [], 0⟩ :=
    Step.push _ e97 [] rfl
  have h2 : Step P1 ⟨⟨[e97], false⟩, [], false, 1, [], [], 0⟩
      ⟨⟨[e97], true⟩, [], true, 1, [], [], 0⟩ :=
    Step.close _ rfl rfl
  have h3 : Step P1 ⟨⟨[e97], true⟩, [], true, 1, [], [], 0⟩
      ⟨⟨[], true⟩, [], true, 0, [e97], [], 0⟩ :=
    Step.popSome _ e97 ⟨[], true⟩ (by decide) rfl rfl
  have h4 : Step P1 ⟨⟨[], true⟩, [], true, 0, [e97], [], 0⟩
      ⟨⟨[], true⟩, [], true, 1, [], [OutRec.matched [97]], 1⟩ :=
    Step.emit _ e97 [] [] rfl
  have h5 : Step P1 ⟨⟨[], true⟩, [], true, 1, [], [OutRec.matched [97]], 1⟩
      w1Final :=
    Step.exitLoop _ ⟨[], true⟩ (by decide) rfl rfl
  exact .head h1 (.head h2 (.head h3 (.head h4 (.head h5 .refl))))

theorem reachW2 : Reach P1 (init wForest.walkForest 2) w1Final := by
  have h1 : Step P1 (init wForest.walkForest 2)
      ⟨⟨[e97], false⟩, [], false, 2, [], [], 0⟩ :=
    Step.push _ e97 [] rfl
  have h2 : Step P1 ⟨⟨[e97], false⟩, [], false, 2, [], [], 0⟩
      ⟨⟨[e97], true⟩, [], true, 2, [], [], 0⟩ :=
    Step.close _ rfl rfl
  have h3 : Step P1 ⟨⟨[e97], true⟩, [], true, 2, [], [], 0⟩
      ⟨⟨[], true⟩, [], true, 1, [e97], [], 0⟩ :=
    Step.popSome _ e97 ⟨[], true⟩ (by decide) rfl rfl
  have h4 : Step P1 ⟨⟨[], true⟩, [], true, 1, [e97], [], 0⟩
      ⟨⟨[], true⟩, [], true, 2, [], [OutRec.matched [97]], 1⟩ :=
    Step.emit _ e97 [] [] rfl
  have h5 : Step P1 ⟨⟨[], true⟩, [], true, 2, [], [OutRec.matched [97]], 1⟩
      ⟨⟨[], true⟩, [], true, 1, [], [OutRec.matched [97]], 1⟩ :=
    Step.exitLoop _ ⟨[], true⟩ (by decide) rfl rfl
  have h6 : Step P1 ⟨⟨[], true⟩, [], true, 1, [], [OutRec.matched [97]], 1⟩
      w1Final :=
    Step.exitLoop _ ⟨[], true⟩ (by decide) rfl rfl
  exact .head h1 (.head h2 (.head h3 (.head h4 (.head h5 (.head h6 .refl)))))

theorem stuckW1 : stuckState P1 w1Final := by
  rintro ⟨s', hstep⟩
  cases hstep with
  | push e rest hp => simp [w1Final] at hp
  | close hp hw => simp [w1Final] at hw
  | popSome e q' h1 h2 h3 => simp [w1Final] at h1
  | emit e h1 h2 hh =>
    have : ([] : List Entry) = h1 ++ e :: h2 := hh
    exact absurd this.symm (by simp)
  | exitLoop q' h1 h2 h3 => simp [w1Final] at h1

/-! ## Claims -/

/-- C6: `pop()` blocks until either an entry is available or the queue is
closed with no entries remaining (its wait predicate holds exactly then);
when entries exist it removes and returns the front entry while `push`
appends at the back, so the returned entry is the oldest (FIFO); and when
the queue is closed and empty it returns `none` as the termination signal.
Stated for both `ThreadSafeQueue` (`mtfks.cpp`) and the identical
`SafeQueue` (`mt_search.cpp`). -/
theorem c6_pop_contract :
    (∀ (α : Type) (qs : ThreadSafeQueue α),
        qs.popReady = true ↔ (qs.finished = true ∨ qs.q ≠ [])) ∧
    (∀ (α : Type) (qs : ThreadSafeQueue α) (e : α) (rest : List α),
        qs.q = e :: rest → qs.pop = (some e, { qs with q := rest })) ∧
    (∀ (α : Type) (qs : ThreadSafeQueue α) (p : α),
        (qs.push p).q = qs.q ++ [p]) ∧
    (∀ (α : Type) (qs : ThreadSafeQueue α),
        qs.finished = true → qs.q = [] → qs.pop = (none, qs)) ∧
    (∀ (α : Type) (qs : SafeQueue α),
        qs.popReady = true ↔ (qs.finished = true ∨ qs.q ≠ [])) ∧
    (∀ (α : Type) (qs : SafeQueue α) (e : α) (rest : List α),
        qs.q = e :: rest → qs.pop = (some e, { qs with q := rest })) ∧
    (∀ (α : Type) (qs : SafeQueue α) (p : α),
        (qs.push p).q = qs.q ++ [p]) ∧
    (∀ (α : Type) (qs : SafeQueue α),
        qs.finished = true → qs.q = [] → qs.pop = (none, qs)) := by
  refine ⟨?_, ?_, ?_, ?_, ?_, ?_, ?_, ?_⟩
  · intro α qs
    obtain ⟨q, f⟩ := qs
    cases f <;> cases q <;> simp [ThreadSafeQueue.popReady]
  · intro α qs e rest h
    obtain ⟨q, f⟩ := qs
    simp only at h
    subst h
    rfl
  · intro α qs p
    rfl
  · intro α qs hf hq
    obtain ⟨q, f⟩ := qs
    simp only at hq
    subst hq
    rfl
  · intro α qs
    obtain ⟨q, f⟩ := qs
    cases f <;> cases q <;> simp [SafeQueue.popReady]
  · intro α qs e rest h
    obtain ⟨q, f⟩ := qs
    simp only at h
    subst h
    rfl
  · intro α qs p
    rfl
  · intro α qs hf hq
    obtain ⟨q, f⟩ := qs
    simp only at hq
    subst hq
    rfl

/-- C6 witness: the contract evaluated on concrete queues. -/
theorem c6_pop_contract_witness :
    (⟨[[1]], false⟩ : ThreadSafeQueue Bytes).pop = (some [1], ⟨[], false⟩) ∧
    (⟨[], true⟩ : ThreadSafeQueue Bytes).pop = (none, ⟨[], true⟩) ∧
    (⟨[[2]], false⟩ : SafeQueue Bytes).pop = (some [2], ⟨[], false⟩) ∧
    (⟨[], true⟩ : SafeQueue Bytes).pop = (none, ⟨[], true⟩) :=
  ⟨c6_pop_contract.2.1 Bytes ⟨[[1]], false⟩ [1] [] rfl,
   c6_pop_contract.2.2.2.1 Bytes ⟨[], true⟩ rfl rfl,
   c6_pop_contract.2.2.2.2.2.1 Bytes ⟨[[2]], false⟩ [2] [] rfl,
   c6_pop_contract.2.2.2.2.2.2.2 Bytes ⟨[], true⟩ rfl rfl⟩

/-- C7 counterexample: `push` on a closed queue is not a no-op. On the
closed empty queue, pushing the path `[7]` appends it, and a subsequent
`pop` delivers it to a consumer — in both queue implementations. This
refutes the claim that the entry is not appended and never delivered. -/
theorem c7_counterexample :
    ((⟨[], true⟩ : ThreadSafeQueue Bytes).push [7]).q = [[7]] ∧
    ((⟨[], true⟩ : ThreadSafeQueue Bytes).push [7]).pop =
      (some [7], ⟨[], true⟩) ∧
    ((⟨[], true⟩ : SafeQueue Bytes).push [7]).q = [[7]] ∧
    ((⟨[], true⟩ : SafeQueue Bytes).push [7]).pop = (some [7], ⟨[], true⟩) :=
  ⟨rfl, rfl, rfl, rfl⟩

/-- C7 (amended): `push` never consults the closed flag: on a closed queue
it still appends the entry at the back and leaves the queue closed, so the
entry can be delivered by a later `pop`. Both implementations behave
alike. -/
theorem c7_push_ignores_close :
    (∀ (α : Type) (qs : ThreadSafeQueue α) (p : α), qs.finished = true →
        (qs.push p).q = qs.q ++ [p] ∧ (qs.push p).finished = true) ∧
    (∀ (α : Type) (qs : SafeQueue α) (p : α), qs.finished = true →
        (qs.push p).q = qs.q ++ [p] ∧ (qs.push p).finished = true) := by
  constructor
  · intro α qs p h
    exact ⟨rfl, h⟩
  · intro α qs p h
    exact ⟨rfl, h⟩

/-- C7 witness: pushing onto concrete closed queues. -/
theorem c7_push_ignores_close_witness :
    (((⟨[], true⟩ : ThreadSafeQueue Bytes).push [3]).q = [] ++ [[3]] ∧
      ((⟨[], true⟩ : ThreadSafeQueue Bytes).push [3]).finished = true) ∧
    (((⟨[], true⟩ : SafeQueue Bytes).push [3]).q = [] ++ [[3]] ∧
      ((⟨[], true⟩ : SafeQueue Bytes).push [3]).finished = true) :=
  ⟨c7_push_ignores_close.1 Bytes ⟨[], true⟩ [3] rfl,
   c7_push_ignores_close.2 Bytes ⟨[], true⟩ [3] rfl⟩

/-- C9: in literal-substring mode, for every file whose content is
successfully read, the predicate answers `true` exactly when the pattern
occurs as a byte substring of the raw content — for `search_file` of
`mtfks.cpp` and `contains_keyword_file` of `mt_search.cpp` alike. -/
theorem c9_literal_substring (fsys : Bytes → Option Bytes) (re : RegexModel)
    (p pattern c : Bytes) (h : fsys p = some c) :
    (search_file fsys re p pattern false = true ↔ IsSub pattern c) ∧
    (contains_keyword_file fsys p pattern = true ↔ IsSub pattern c) := by
  have h1 : search_file fsys re p pattern false = (cppFind c pattern).isSome := by
    simp [search_file, h]
  have h2 : contains_keyword_file fsys p pattern = (cppFind c pattern).isSome := by
    simp [contains_keyword_file, h]
  rw [h1, h2]
  exact ⟨cppFind_isSome_iff c pattern, cppFind_isSome_iff c pattern⟩

/-- C9 witness: the pattern `a` against the content `hay`. -/
theorem c9_literal_substring_witness :
    (search_file (fun _ => some [104, 97, 121]) reNone [1] [97] false = true ↔
      IsSub [97] [104, 97, 121]) ∧
    (contains_keyword_file (fun _ => some [104, 97, 121]) [1] [97] = true ↔
      IsSub [97] [104, 97, 121]) :=
  c9_literal_substring (fun _ => some [104, 97, 121]) reNone [1] [97]
    [104, 97, 121] rfl

/-- C10: in literal mode with the empty pattern, both predicates answer
`true` for every file that can be opened and read — including an empty
file — and consequently every readable regular file of the walked tree is
reported as a match. -/
theorem c10_empty_pattern (fsys : Bytes → Option Bytes) (re : RegexModel)
    (p c : Bytes) (h : fsys p = some c) :
    search_file fsys re p [] false = true ∧
    contains_keyword_file fsys p [] = true ∧
    (∀ (P : Params) (root : FsForest) (e : Entry),
        P.pattern = [] → P.use_regex = false →
        e ∈ root.walkForest → e.kind = .file → e.classifyErr = none →
        (∃ c2, e.content = some c2) →
        OutRec.matched e.path ∈ pendRecs P root.walkForest) := by
  refine ⟨?_, ?_, ?_⟩
  · simp [search_file, h, cppFind_nil_pat]
  · simp [contains_keyword_file, h, cppFind_nil_pat]
  · rintro P root e hpat hmode hmem hk hc ⟨c2, hcon⟩
    exact mem_pendRecs hmem (matched_mem_entryRecs hk hc c2 hcon hpat hmode)

/-- C10 witness: the empty pattern against an empty readable file, and the
run over the one-file tree with the empty pattern reporting that file. -/
theorem c10_empty_pattern_witness :
    search_file (fun _ => some []) reNone [1] [] false = true ∧
    contains_keyword_file (fun _ => some []) [1] [] = true ∧
    OutRec.matched [97] ∈ pendRecs P2 wForest.walkForest :=
  ⟨(c10_empty_pattern (fun _ => some []) reNone [1] [] rfl).1,
   (c10_empty_pattern (fun _ => some []) reNone [1] [] rfl).2.1,
   (c10_empty_pattern (fun _ => some []) reNone [1] [] rfl).2.2 P2 wForest e97
     rfl rfl (by decide) rfl rfl ⟨[97], rfl⟩⟩

/-- C1 counterexample: with the invalid regex pattern `(` in mode 1, the
process does not exit non-zero before any file is opened: the run
completes with exit code 0, the one regular file of the tree is opened,
read and counted (`scanned = 1`), and the invalid pattern merely makes
every file a non-match. -/
theorem c1_counterexample :
    (mtfks_main reNone c1Argv c1Forest).exitCode = 0 ∧
    (mtfks_main reNone c1Argv c1Forest).scanned = 1 ∧
    (mtfks_main reNone c1Argv c1Forest).outs = [] := by
  refine ⟨rfl, rfl, rfl⟩

/-- C1 (amended): in pattern-match mode the pattern is compiled inside
`search_file`, once per searched file and only after that file has been
opened and read; an invalid pattern is caught there per call and makes the
file a non-match, and the process completes the scan and exits 0 with no
match records. -/
theorem c1_regex_per_file :
    (∀ (re : RegexModel) (fsys : Bytes → Option Bytes) (p pat c : Bytes),
        re.compile pat = none → fsys p = some c →
        search_file fsys re p pat true = false) ∧
    (∀ (re : RegexModel) (argv : List Bytes) (root : FsForest)
        (cfg : MtfksConfig), mtfks_parse argv = .ok cfg →
        (mtfks_main re argv root).exitCode = 0) := by
  constructor
  · intro re fsys p pat c h1 h2
    simp [search_file, h2, h1]
  · intro re argv root cfg hp
    simp [mtfks_main, hp]

/-- C1 witness: the amended behaviour on the concrete invalid pattern. -/
theorem c1_regex_per_file_witness :
    search_file (fun _ => some [97]) reNone [102] [40] true = false ∧
    (mtfks_main reNone c1Argv c1Forest).exitCode = 0 :=
  ⟨c1_regex_per_file.1 reNone (fun _ => some [97]) [102] [40] [97] rfl rfl,
   c1_regex_per_file.2 reNone c1Argv c1Forest ⟨[114], [40], 1, true⟩
     (by decide)⟩

/-- C2: for every configuration and every worker count `N ≥ 1` — with
`toPush` an arbitrary list, covering walks aborted by a root-path error —
(a) no execution of the run is infinite, (b) in every reachable state
where nothing can move, every worker has exited its loop and the queue has
been closed (so no worker is left blocked on `pop` forever), and (c)
`set_finished` makes the `pop` wait predicate true for every queue state,
which is how `notify_all` wakes every blocked consumer. -/
theorem c2_shutdown (P : Params) (all : List Entry) (N : Nat) (hN : 1 ≤ N) :
    (∀ f : Nat → SysState, f 0 = init all N →
        ¬ (∀ n, Step P (f n) (f (n + 1)))) ∧
    (∀ s : SysState, Reach P (init all N) s → stuckState P s →
        s.idle = 0 ∧ s.holding = [] ∧ s.queue.finished = true) ∧
    (∀ (α : Type) (qs : ThreadSafeQueue α),
        (qs.set_finished).popReady = true) := by
  refine ⟨?_, ?_, ?_⟩
  · intro f h0 hsteps
    exact no_infinite_run P f hsteps
  · intro s hr hstuck
    obtain ⟨h1, h2, h3, -, -⟩ := stuck_terminal hN hr hstuck
    exact ⟨h1, h2, h3⟩
  · intro α qs
    simp [ThreadSafeQueue.set_finished, ThreadSafeQueue.popReady]

/-- C2 witness: the shutdown guarantees instantiated at one worker and the
empty walk. -/
theorem c2_shutdown_witness :
    (∀ f : Nat → SysState, f 0 = init [] 1 →
        ¬ (∀ n, Step P1 (f n) (f (n + 1)))) ∧
    (∀ s : SysState, Reach P1 (init [] 1) s → stuckState P1 s →
        s.idle = 0 ∧ s.holding = [] ∧ s.queue.finished = true) ∧
    (∀ (α : Type) (qs : ThreadSafeQueue α),
        (qs.set_finished).popReady = true) :=
  c2_shutdown P1 [] 1 (by decide)

/-- C3: for every directory tree and every worker count `N ≥ 1`, the final
`n_files_scanned` of every complete run equals the number of regular files
reachable from the root: directories and special entries are never
counted, each regular file exactly once; and the per-file increment does
not depend on the read result (the counter is incremented before the read
attempt), so a regular file whose read fails is still counted. -/
theorem c3_scanned_count (P : Params) (root : FsForest) (N : Nat)
    (s : SysState) (hN : 1 ≤ N)
    (hr : Reach P (init root.walkForest N) s) (hstuck : stuckState P s) :
    s.scanned = root.countFilesForest ∧
    (∀ (p : Bytes) (c : Option Bytes), entryCnt P ⟨p, .file, none, c⟩ = 1) := by
  constructor
  · have h := (stuck_counts hN hr hstuck).2
    rw [h, pendCnt_walkForest]
  · intro p c
    exact entryCnt_file P p c

/-- C3 witness: the one-file tree scanned by one worker, and the increment
of an unreadable regular file. -/
theorem c3_scanned_count_witness :
    w1Final.scanned = wForest.countFilesForest ∧
    entryCnt P1 ⟨[53], .file, none, none⟩ = 1 :=
  ⟨(c3_scanned_count P1 wForest 1 w1Final (by decide) reachW1 stuckW1).1,
   (c3_scanned_count P1 wForest 1 w1Final (by decide) reachW1 stuckW1).2
     [53] none⟩

/-- C4 counterexample: in the specification scenario — files `A`
(content `needle`), `B` (content `hay`), unreadable `C`, pattern
`needle`, literal mode — the run output contains no error line at all:
it is exactly the match line for `A`, while all three files are counted.
In particular the worker emits no diagnostic record for the unreadable
regular file `C`: its failed read is silently a non-match. This refutes
the claim that the output contains an error line for `C`. -/
theorem c4_counterexample :
    pendRecs Pscen scenForest.walkForest = [OutRec.matched [65]] ∧
    pendCnt Pscen scenForest.walkForest = 3 ∧
    processEntry Pscen ⟨[67], .file, none, none⟩ = ([], 1) := by
  refine ⟨by decide, by decide, by decide⟩

/-- C4 (amended): a regular file whose content cannot be read is counted
and silently treated as a non-match — the worker emits no record for it
and continues with the next item; the only per-file error records are
those for paths on which the filesystem classification
(`fs::is_regular_file`) throws, which are reported and not counted. -/
theorem c4_read_failure_silent :
    (∀ (P : Params) (p : Bytes),
        processEntry P ⟨p, .file, none, none⟩ = ([], 1)) ∧
    (∀ (P : Params) (e : Entry) (m : Bytes), e.classifyErr = some m →
        processEntry P e = ([.err e.path m], 0)) ∧
    (∀ (P : Params) (e : Entry) (es : List Entry),
        pendRecs P (e :: es) = entryRecs P e ++ pendRecs P es) := by
  refine ⟨?_, ?_, ?_⟩
  · intro P p
    rfl
  · intro P e m h
    simp [processEntry, is_regular_file, h]
  · intro P e es
    rfl

/-- C4 witness: the amended behaviour on concrete entries. -/
theorem c4_read_failure_silent_witness :
    processEntry P1 ⟨[67], .file, none, none⟩ = ([], 1) ∧
    processEntry P1 ⟨[68], .special, some [69], none⟩ =
      ([.err [68] [69]], 0) ∧
    pendRecs P1 (⟨[67], .file, none, none⟩ :: []) =
      entryRecs P1 ⟨[67], .file, none, none⟩ ++ pendRecs P1 [] :=
  ⟨c4_read_failure_silent.1 P1 [67],
   c4_read_failure_silent.2.1 P1 ⟨[68], .special, some [69], none⟩ [69] rfl,
   c4_read_failure_silent.2.2 P1 ⟨[67], .file, none, none⟩ []⟩

/-- C5: for every directory tree and every pair of worker counts `N1 N2 ≥
1`, two complete runs over the same tree with the same parameters report
exactly the same set of matching file paths: thread count never changes
the result set. -/
theorem c5_thread_count_independent (P : Params) (root : FsForest)
    (N1 N2 : Nat) (s1 s2 : SysState) (h1 : 1 ≤ N1) (h2 : 1 ≤ N2)
    (hr1 : Reach P (init root.walkForest N1) s1) (hs1 : stuckState P s1)
    (hr2 : Reach P (init root.walkForest N2) s2) (hs2 : stuckState P s2)
    (p : Bytes) :
    OutRec.matched p ∈ s1.outs ↔ OutRec.matched p ∈ s2.outs := by
  have o1 := (stuck_counts h1 hr1 hs1).1 (OutRec.matched p)
  have o2 := (stuck_counts h2 hr2 hs2).1 (OutRec.matched p)
  rw [← occCount_pos_iff_mem, ← occCount_pos_iff_mem, o1, o2]

/-- C5 witness: complete runs of the one-file tree with one and with two
workers agree on the reported path. -/
theorem c5_thread_count_independent_witness :
    OutRec.matched [97] ∈ w1Final.outs ↔ OutRec.matched [97] ∈ w1Final.outs :=
  c5_thread_count_independent P1 wForest 1 2 w1Final w1Final (by decide)
    (by decide) reachW1 stuckW1 reachW2 stuckW1 [97]

/-- C8 counterexample: the CLI does not accept
`<root_path> <pattern> <thread_count> [<mode>]` with an optional mode.
In `mtfks.cpp`, invoking with the three arguments root, pattern, count
(mode omitted) is rejected with the usage error instead of running, and
with five `argv` entries the root path is taken from `argv[2]` and the
pattern from `argv[1]` — the reverse of the claimed order. -/
theorem c8_counterexample :
    mtfks_parse [[109], [47, 116], [120], [50]] = .usage ∧
    mtfks_parse [[109], [97], [98], [49], [48]] = .ok ⟨[98], [97], 1, false⟩ := by
  refine ⟨by decide, by decide⟩

/-- C8 (amended): `mtfks.cpp` takes `<pattern> <root_path> <thread_count>
<mode>` with all four required (exactly five `argv` entries; any other
count exits with code 2 after a usage message on standard error), while
`mt_search.cpp` takes `<root_path> <keyword> <thread_count>` with no mode
argument (fewer than four `argv` entries exits with code 2 and usage,
extra entries are ignored); in both, `thread_count ≤ 0` is coerced
to 1. -/
theorem c8_cli_contract :
    (∀ argv : List Bytes, argv.length ≠ 5 → mtfks_parse argv = .usage) ∧
    (∀ (a0 a1 a2 a3 a4 : Bytes) (nt md : Int),
        cppStoi a3 = some nt → cppStoi a4 = some md →
        mtfks_parse [a0, a1, a2, a3, a4] = .ok ⟨a2, a1, nt, md != 0⟩) ∧
    (∀ cfg : MtfksConfig, cfg.num_threads ≤ 0 → effThreads cfg = 1) ∧
    (∀ (re : RegexModel) (argv : List Bytes) (root : FsForest),
        mtfks_parse argv = .usage → (mtfks_main re argv root).exitCode = 2) ∧
    (∀ argv : List Bytes, argv.length < 4 → mt_parse argv = .usage) ∧
    (∀ (a0 a1 a2 a3 : Bytes) (rest : List Bytes) (nt : Int),
        cppStoi a3 = some nt →
        mt_parse (a0 :: a1 :: a2 :: a3 :: rest) = .ok ⟨a1, a2, nt⟩) ∧
    (∀ cfg : MtConfig, cfg.num_threads ≤ 0 → mtEffThreads cfg = 1) := by
  refine ⟨?_, ?_, ?_, ?_, ?_, ?_, ?_⟩
  · intro argv h
    rcases argv with _ | ⟨a0, _ | ⟨a1, _ | ⟨a2, _ | ⟨a3, _ | ⟨a4, _ | ⟨a5, rest⟩⟩⟩⟩⟩⟩
    · rfl
    · rfl
    · rfl
    · rfl
    · rfl
    · exact absurd (by simp) h
    · rfl
  · intro a0 a1 a2 a3 a4 nt md h3 h4
    simp [mtfks_parse, h3, h4]
  · intro cfg h
    simp [effThreads, h]
  · intro re argv root hp
    simp [mtfks_main, hp]
  · intro argv h
    rcases argv with _ | ⟨a0, _ | ⟨a1, _ | ⟨a2, _ | ⟨a3, rest⟩⟩⟩⟩
    · rfl
    · rfl
    · rfl
    · rfl
    · exfalso
      simp only [List.length_cons] at h
      omega
  · intro a0 a1 a2 a3 rest nt h3
    simp [mt_parse, h3]
  · intro cfg h
    simp [mtEffThreads, h]

/-- C8 witness: the amended CLI contract on concrete command lines. -/
theorem c8_cli_contract_witness :
    mtfks_parse [[109]] = .usage ∧
    mtfks_parse [[109], [97], [98], [49], [48]] = .ok ⟨[98], [97], 1, false⟩ ∧
    effThreads ⟨[98], [97], 0, false⟩ = 1 ∧
    (mtfks_main reNone [[109]] FsForest.nil).exitCode = 2 ∧
    mt_parse [[109]] = .usage ∧
    mt_parse [[109], [97], [98], [49]] = .ok ⟨[97], [98], 1⟩ ∧
    mtEffThreads ⟨[97], [98], -2⟩ = 1 :=
  ⟨c8_cli_contract.1 [[109]] (by decide),
   c8_cli_contract.2.1 [109] [97] [98] [49] [48] 1 0 (by decide) (by decide),
   c8_cli_contract.2.2.1 ⟨[98], [97], 0, false⟩ (by decide),
   c8_cli_contract.2.2.2.1 reNone [[109]] FsForest.nil (by decide),
   c8_cli_contract.2.2.2.2.1 [[109]] (by decide),
   c8_cli_contract.2.2.2.2.2.1 [109] [97] [98] [49] [] 1 (by decide),
   c8_cli_contract.2.2.2.2.2.2 ⟨[97], [98], -2⟩ (by decide)⟩

end MTFKS
